import Mathlib

/-!
Verification of the data-viz SAE bubble script (`src/app.py`).

We shallowly embed the script's data pipeline:
  * loading artifacts becomes an `Inputs` structure,
  * the aggregation loop (nonzero counts, descending rank, dedup by label,
    expansion collection) becomes a fold over the processed feature list,
  * the coordinate binder becomes prefix truncation to the minimum length,
  * the client-side callbacks (selection, zoom, slider filter) become pure
    functions translated from the embedded JS snippets.

Activations are modelled as rationals (the script only compares them with
constants, never does float arithmetic whose rounding would matter), the
activation matrix as a list of rows (examples), each row a list of feature
activations.
-/

namespace DataVizSAE

/-- The artifacts the script loads: `ind_to_question.pt` (example index to
text), `rand_activations_sparse.npz` densified (rows = examples, columns =
features), `feature_labels.pt` (feature index to label, a finite map
modelled as an association list with distinct keys), and
`coords_2d.pt["coords_2d"]` (a list of 2D points). -/
structure Inputs where
  ind_to_question : Nat → String
  feature_activations : List (List ℚ)
  feature_labels : List (Nat × String)
  coords_2d : List (ℚ × ℚ)

/-- Dictionary lookup `feature_labels[i]` / membership `i in feature_labels`. -/
def lookupLabel (fl : List (Nat × String)) (i : Nat) : Option String :=
  (fl.find? (fun p => p.1 == i)).map (fun p => p.2)

/-- The bound `max(feature_labels.keys())` of the labeled column range (for
a non-empty mapping, as the script assumes; it aborts on an empty one). -/
def maxLabelKey (fl : List (Nat × String)) : Nat :=
  (fl.map (fun p => p.1)).foldl Nat.max 0

/-- The matrix entry `feature_activations[j, i]`, with out-of-range reads
defaulting to `0` (the script never reads out of range). -/
def activation (inp : Inputs) (j i : Nat) : ℚ :=
  (inp.feature_activations.getD j []).getD i 0

/-- The count `(feature_activations[:, :K] > 0).sum(axis=0)` at column `i`:
the number of example rows whose activation at feature `i` is strictly
positive. -/
def nonzeroCount (inp : Inputs) (i : Nat) : Nat :=
  (inp.feature_activations.filter (fun row => decide (0 < row.getD i 0))).length

/-- The array `nonzero_features`: per-column nonzero counts for the labeled
column range `[:, :max(feature_labels.keys())]`. -/
def nonzero_features (inp : Inputs) : List Nat :=
  (List.range (maxLabelKey inp.feature_labels)).map (nonzeroCount inp)

/-- The comparison `np.argsort` uses once values are decorated with their
index: ascending by value, ties broken by ascending index (a stable
ascending sort, one valid realization of `argsort`). -/
def argRel {α : Type} [LinearOrder α] : Nat × α → Nat × α → Prop :=
  fun a b => a.2 < b.2 ∨ (a.2 = b.2 ∧ a.1 ≤ b.1)

instance {α : Type} [LinearOrder α] : DecidableRel (argRel (α := α)) := by
  intro a b
  unfold argRel
  infer_instance

instance {α : Type} [LinearOrder α] : IsTotal (Nat × α) argRel where
  total a b := by
    rcases lt_trichotomy a.2 b.2 with h | h | h
    · exact Or.inl (Or.inl h)
    · rcases Nat.le_total a.1 b.1 with h1 | h1
      · exact Or.inl (Or.inr ⟨h, h1⟩)
      · exact Or.inr (Or.inr ⟨h.symm, h1⟩)
    · exact Or.inr (Or.inl h)

instance {α : Type} [LinearOrder α] : IsTrans (Nat × α) argRel where
  trans a b c hab hbc := by
    rcases hab with hab | ⟨hab, hab1⟩
    · rcases hbc with hbc | ⟨hbc, _⟩
      · exact Or.inl (hab.trans hbc)
      · exact Or.inl (hbc ▸ hab)
    · rcases hbc with hbc | ⟨hbc, hbc1⟩
      · exact Or.inl (hab ▸ hbc)
      · exact Or.inr ⟨hab.trans hbc, hab1.trans hbc1⟩

/-- The sort `np.argsort(v)`: indices of `v` in ascending order of value
(stable). -/
def argsort {α : Type} [LinearOrder α] (v : List α) (d : α) : List Nat :=
  (((List.range v.length).map (fun i => (i, v.getD i d))).insertionSort argRel).map
    (fun p => p.1)

/-- The ranking `top_features = np.argsort(nonzero_features)[::-1]`. -/
def top_features (inp : Inputs) : List Nat :=
  (argsort (nonzero_features inp) 0).reverse

/-- The feature indices the aggregation loop iterates over:
`top_features[100:]`. -/
def processed_features (inp : Inputs) : List Nat :=
  (top_features inp).drop 100

/-- Column `i` of the activation matrix: `feature_activations[:, i]`. -/
def column (inp : Inputs) (i : Nat) : List ℚ :=
  inp.feature_activations.map (fun row => row.getD i 0)

/-- The example indices kept for feature `i`'s expansions:
`np.argsort(feature_activations[:, i])[::-1][:10]` filtered to
`feature_activations[j, i] > 0.1`. -/
def expansion_indices (inp : Inputs) (i : Nat) : List Nat :=
  (((argsort (column inp i) 0).reverse).take 10).filter
    (fun j => decide ((1 : ℚ)/10 < activation inp j i))

/-- The expansion texts collected for feature `i`:
`ind_to_question[j]` for each kept example index `j`, in order. -/
def expansionsFor (inp : Inputs) (i : Nat) : List String :=
  (expansion_indices inp i).map inp.ind_to_question

/-- The aggregation loop's state: the parallel lists `texts` and `numbers`
and the dictionary `expansions_map` (insertion-ordered association list,
matching a Python dict's iteration order). -/
structure AggState where
  texts : List String
  numbers : List Nat
  expansions_map : List (String × List String)
deriving DecidableEq

/-- Dictionary lookup `expansions_map.get(t, [])`. -/
def lookupExp (m : List (String × List String)) (t : String) : List String :=
  ((m.find? (fun p => p.1 == t)).map (fun p => p.2)).getD []

/-- The search `texts.index(label)`: the position of the first occurrence
of `t` in `l`. -/
def indexOfStr : List String → String → Nat
  | [], _ => 0
  | a :: l, t => if a = t then 0 else indexOfStr l t + 1

/-- One iteration of the aggregation loop body for feature `i`:
skip when `i` has no label or `nonzero_features[i] <= 50`; create a new
bubble (appending to `texts`, `numbers`, `expansions_map`) when its label is
unseen; otherwise keep the larger count at the label's existing position. -/
def aggStep (inp : Inputs) (nf : List Nat) (s : AggState) (i : Nat) : AggState :=
  match lookupLabel inp.feature_labels i with
  | none => s
  | some label =>
    if 50 < nf.getD i 0 then
      if label ∈ s.texts then
        let idx := indexOfStr s.texts label
        let newCount := Nat.max (s.numbers.getD idx 0) (nf.getD i 0)
        { s with numbers := s.numbers.set idx newCount }
      else
        { texts := s.texts ++ [label]
          numbers := s.numbers ++ [nf.getD i 0]
          expansions_map := s.expansions_map ++ [(label, expansionsFor inp i)] }
    else s

/-- Running the aggregation loop over an arbitrary list of feature indices,
starting from empty state. -/
def aggregateOver (inp : Inputs) (fs : List Nat) : AggState :=
  fs.foldl (aggStep inp (nonzero_features inp)) ⟨[], [], []⟩

/-- The script's aggregation: the loop body run over `top_features[100:]`. -/
def aggregate (inp : Inputs) : AggState :=
  aggregateOver inp (processed_features inp)

/-- The state after the coordinate binder: `texts`, `numbers`, `x_coords`,
`y_coords` each truncated to `min(len(texts), len(x_coords))`. -/
structure BoundData where
  texts : List String
  numbers : List Nat
  x_coords : List ℚ
  y_coords : List ℚ
deriving DecidableEq

/-- The coordinate binder: slices all four parallel lists to the prefix of
length `min_len = min(len(texts), len(x_coords))`. -/
def bindCoords (inp : Inputs) : BoundData :=
  let s := aggregate inp
  let xs := inp.coords_2d.map (fun p => p.1)
  let ys := inp.coords_2d.map (fun p => p.2)
  let min_len := min s.texts.length xs.length
  ⟨s.texts.take min_len, s.numbers.take min_len, xs.take min_len, ys.take min_len⟩

/-- The truncation `t[:20] + "..." if len(t) > 20 else t`. -/
def truncate_text (t : String) : String :=
  if 20 < t.length then t.take 20 ++ "..." else t

/-- A `ColumnDataSource`'s data: the seven parallel columns. -/
structure Table where
  x : List ℚ
  y : List ℚ
  text : List String
  truncated : List String
  number : List Nat
  size : List ℚ
  expansions : List (List String)
deriving DecidableEq

/-- The data of `full_source`: the immutable full table built after binding. -/
def full_table (inp : Inputs) : Table :=
  let b := bindCoords inp
  { x := b.x_coords
    y := b.y_coords
    text := b.texts
    truncated := b.texts.map truncate_text
    number := b.numbers
    size := b.numbers.map (fun n : Nat => (n : ℚ) / 2)
    expansions := b.texts.map (fun t => lookupExp (aggregate inp).expansions_map t) }

/-- The constant `min_nonzero = 5`, the slider's fixed lower bound. -/
def min_nonzero : Nat := 5

/-- The bound `max_nonzero = max(numbers) if numbers else 100`, the slider's
upper bound. -/
def max_nonzero (numbers : List Nat) : Nat :=
  match numbers with
  | [] => 100
  | n :: rest => rest.foldl Nat.max n

/-- The constant `threshold_x = 5`. -/
def threshold_x : ℚ := 5

/-- The constant `threshold_y = 5`. -/
def threshold_y : ℚ := 5

/-- The zoom callback's decision: labels visible iff the visible range width
and height are both strictly below their thresholds. -/
def zoom_visible (x_start x_end y_start y_end : ℚ) : Bool :=
  decide (x_end - x_start < threshold_x) && decide (y_end - y_start < threshold_y)

/-- The selection panel's placeholder text. -/
def placeholder : String := "<i>Click a bubble to see details...</i>"

/-- The accumulation `expansions_html += <li>...</li>` over the expansions. -/
def render_expansion_items (es : List String) : String :=
  es.foldl (fun acc e => acc ++ "<li>" ++ e ++ "</li>") ""

/-- The "no expansions" message for a bubble's label. -/
def no_expansions_msg (text : String) : String :=
  "<b>No expansions found for:</b> " ++ text

/-- The detail markup for a bubble with expansions. -/
def detail_msg (text : String) (es : List String) : String :=
  "<div style=\"font-size: 12px;\">" ++ text ++
    "</div><ul style=\"font-size: 12px;\">" ++ render_expansion_items es ++ "</ul>"

/-- The tap-selection callback: empty selection resets to the placeholder;
otherwise the first selected index's expansions drive the panel (missing or
empty expansion list shows the "no expansions" message). -/
def selection_callback (data : Table) (inds : List Nat) : String :=
  match inds with
  | [] => placeholder
  | i :: _ =>
    match data.expansions[i]? with
    | none => no_expansions_msg (data.text.getD i "")
    | some es =>
      if es.isEmpty then no_expansions_msg (data.text.getD i "")
      else detail_msg (data.text.getD i "") es

/-- The empty accumulator the slider callback starts from. -/
def emptyTable : Table := ⟨[], [], [], [], [], [], []⟩

/-- One iteration of the slider callback's loop: push row `i`'s fields onto
the accumulators when `full_data['number'][i] >= threshold`. -/
def sliderStep (full : Table) (threshold : Nat) (acc : Table) (i : Nat) : Table :=
  if threshold ≤ full.number.getD i 0 then
    { x := acc.x ++ [full.x.getD i 0]
      y := acc.y ++ [full.y.getD i 0]
      text := acc.text ++ [full.text.getD i ""]
      truncated := acc.truncated ++ [full.truncated.getD i ""]
      number := acc.number ++ [full.number.getD i 0]
      size := acc.size ++ [full.size.getD i 0]
      expansions := acc.expansions ++ [full.expansions.getD i []] }
  else acc

/-- The slider callback: rebuild the working table from the full table by
the loop `for i in range(full_data.x.length)`. -/
def slider_filter (full : Table) (threshold : Nat) : Table :=
  (List.range full.x.length).foldl (sliderStep full threshold) emptyTable

/-- Positional selection of entries of `l` at the given indices (the
spec's description of index-consistent filtering). -/
def select {α : Type} (l : List α) (d : α) (is : List Nat) : List α :=
  is.map (fun i => l.getD i d)

/-- The indices the slider filter keeps, per the spec: positions in the full
table whose count is at least the threshold, in their original order. -/
def keep_indices (full : Table) (threshold : Nat) : List Nat :=
  (List.range full.x.length).filter (fun i => decide (threshold ≤ full.number.getD i 0))

/-- The loop guard for feature `i` with label `lab`: `i` carries label `lab`
and its nonzero count exceeds 50. -/
def qualB (inp : Inputs) (lab : String) (i : Nat) : Bool :=
  decide (50 < (nonzero_features inp).getD i 0)
    && (lookupLabel inp.feature_labels i == some lab)

/-- The features among `fs` the loop accepts for label `lab`, in order. -/
def qualifying (inp : Inputs) (fs : List Nat) (lab : String) : List Nat :=
  fs.filter (qualB inp lab)

/-- The labels of accepted features, in processing order, with repetition. -/
def qual_labels (inp : Inputs) (fs : List Nat) : List String :=
  fs.filterMap (fun i =>
    match lookupLabel inp.feature_labels i with
    | some lab => if 50 < (nonzero_features inp).getD i 0 then some lab else none
    | none => none)

/-- The maximum nonzero count over the accepted features for `lab`. -/
def maxQualCount (inp : Inputs) (fs : List Nat) (lab : String) : Nat :=
  ((qualifying inp fs lab).map
    (fun i => (nonzero_features inp).getD i 0)).foldl Nat.max 0

/-- The first accepted feature for `lab` among `fs`, when one exists. -/
def firstQual (inp : Inputs) (fs : List Nat) (lab : String) : Option Nat :=
  fs.find? (qualB inp lab)

/-! ### Helper lemmas -/

lemma map_getD_range {α : Type} (l : List α) (d : α) :
    (List.range l.length).map (fun i => l.getD i d) = l := by
  induction l with
  | nil => rfl
  | cons a t ih =>
    rw [List.length_cons, List.range_succ_eq_map, List.map_cons, List.map_map]
    have hmap : List.map ((fun i => (a :: t).getD i d) ∘ Nat.succ) (List.range t.length)
        = List.map (fun i => t.getD i d) (List.range t.length) :=
      List.map_congr_left (fun i _ => rfl)
    rw [hmap, ih]
    rfl

lemma foldl_max_mem (a : Nat) (l : List Nat) : l.foldl Nat.max a ∈ a :: l := by
  induction l generalizing a with
  | nil => exact List.mem_singleton.mpr rfl
  | cons b t ih =>
    rw [List.foldl_cons]
    rcases List.mem_cons.mp (ih (Nat.max a b)) with h | h
    · rw [h]
      have hc : Nat.max a b = a ∨ Nat.max a b = b := by
        rw [Nat.max_eq_max]
        exact max_choice a b
      rcases hc with hm | hm
      · rw [hm]
        exact List.mem_cons_self _ _
      · rw [hm]
        exact List.mem_cons_of_mem _ (List.mem_cons_self _ _)
    · exact List.mem_cons_of_mem _ (List.mem_cons_of_mem _ h)

lemma le_foldl_max (a : Nat) (l : List Nat) :
    a ≤ l.foldl Nat.max a ∧ ∀ n ∈ l, n ≤ l.foldl Nat.max a := by
  induction l generalizing a with
  | nil => exact ⟨Nat.le_refl a, by intro n h; cases h⟩
  | cons b t ih =>
    rw [List.foldl_cons]
    obtain ⟨h1, h2⟩ := ih (Nat.max a b)
    refine ⟨le_trans (Nat.le_max_left a b) h1, ?_⟩
    intro n hn
    rcases List.mem_cons.mp hn with h | h
    · subst h
      exact le_trans (Nat.le_max_right a n) h1
    · exact h2 n h

lemma slider_foldl (full : Table) (th : Nat) (is : List Nat) (acc : Table) :
    is.foldl (sliderStep full th) acc =
      ⟨acc.x ++ select full.x 0 (is.filter (fun i => decide (th ≤ full.number.getD i 0))),
       acc.y ++ select full.y 0 (is.filter (fun i => decide (th ≤ full.number.getD i 0))),
       acc.text ++ select full.text "" (is.filter (fun i => decide (th ≤ full.number.getD i 0))),
       acc.truncated ++
         select full.truncated "" (is.filter (fun i => decide (th ≤ full.number.getD i 0))),
       acc.number ++ select full.number 0 (is.filter (fun i => decide (th ≤ full.number.getD i 0))),
       acc.size ++ select full.size 0 (is.filter (fun i => decide (th ≤ full.number.getD i 0))),
       acc.expansions ++
         select full.expansions [] (is.filter (fun i => decide (th ≤ full.number.getD i 0)))⟩ := by
  induction is generalizing acc with
  | nil => cases acc; simp [select]
  | cons i t ih =>
    rw [List.foldl_cons, ih, List.filter_cons]
    by_cases h : th ≤ full.number.getD i 0
    · rw [if_pos (decide_eq_true h)]
      simp only [sliderStep, if_pos h, select, List.map_cons]
      simp [List.append_assoc]
    · rw [if_neg (by simpa using h)]
      simp only [sliderStep, if_neg h]

lemma foldl_append_str (l : List String) (a b : String) :
    l.foldl (fun r s => r ++ s) (a ++ b) = a ++ l.foldl (fun r s => r ++ s) b := by
  induction l generalizing b with
  | nil => rfl
  | cons s t ih => rw [List.foldl_cons, List.foldl_cons, String.append_assoc, ih]

lemma join_cons_str (s : String) (l : List String) :
    String.join (s :: l) = s ++ String.join l := by
  show List.foldl (fun r s => r ++ s) ("" ++ s) l = _
  rw [String.empty_append]
  conv_lhs => rw [← String.append_empty s]
  rw [foldl_append_str]
  rfl

lemma foldl_li_append (es : List String) (acc : String) :
    es.foldl (fun a e => a ++ "<li>" ++ e ++ "</li>") acc =
      acc ++ String.join (es.map (fun e => "<li>" ++ e ++ "</li>")) := by
  induction es generalizing acc with
  | nil => simp [String.join]
  | cons e t ih =>
    rw [List.foldl_cons, ih, List.map_cons, join_cons_str]
    rw [← String.append_assoc, ← String.append_assoc, ← String.append_assoc]

/-- Structural invariants every loop iteration preserves: `numbers` stays
parallel to `texts`, and the keys of `expansions_map` are exactly `texts`
in order. -/
structure AggBasic (s : AggState) : Prop where
  len_numbers : s.numbers.length = s.texts.length
  keys_eq : s.expansions_map.map (fun p => p.1) = s.texts

lemma aggStep_basic (inp : Inputs) (nf : List Nat) (s : AggState) (i : Nat)
    (h : AggBasic s) : AggBasic (aggStep inp nf s i) := by
  unfold aggStep
  split
  · exact h
  · split
    · split
      · exact ⟨by simp [h.len_numbers], h.keys_eq⟩
      · refine ⟨?_, ?_⟩
        · simp [h.len_numbers]
        · simp [h.keys_eq]
    · exact h

lemma aggregateOver_basic (inp : Inputs) (fs : List Nat) :
    AggBasic (aggregateOver inp fs) :=
  List.foldlRecOn fs _ _ ⟨rfl, rfl⟩
    (fun s hs i _ => aggStep_basic inp (nonzero_features inp) s i hs)

lemma aggStep_counts (inp : Inputs) (nf : List Nat) (s : AggState) (i : Nat)
    (h : ∀ n ∈ s.numbers, 50 < n) : ∀ n ∈ (aggStep inp nf s i).numbers, 50 < n := by
  unfold aggStep
  split
  · exact h
  · split
    · split
      · intro n hn
        rcases List.mem_or_eq_of_mem_set hn with hn | hn
        · exact h n hn
        · subst hn
          calc 50 < nf.getD i 0 := by assumption
            _ ≤ _ := Nat.le_max_right _ _
      · intro n hn
        rcases List.mem_append.mp hn with hn | hn
        · exact h n hn
        · rw [List.mem_singleton.mp hn]
          assumption
    · exact h

lemma aggregateOver_counts (inp : Inputs) (fs : List Nat) :
    ∀ n ∈ (aggregateOver inp fs).numbers, 50 < n :=
  List.foldlRecOn fs _ _ (by intro n hn; cases hn)
    (fun s hs i _ => aggStep_counts inp (nonzero_features inp) s i hs)

/-- The slider callback's loop, in closed form: every parallel field is the
positional selection of the kept indices. -/
lemma slider_filter_eq (full : Table) (threshold : Nat) :
    slider_filter full threshold =
      ⟨select full.x 0 (keep_indices full threshold),
       select full.y 0 (keep_indices full threshold),
       select full.text "" (keep_indices full threshold),
       select full.truncated "" (keep_indices full threshold),
       select full.number 0 (keep_indices full threshold),
       select full.size 0 (keep_indices full threshold),
       select full.expansions [] (keep_indices full threshold)⟩ := by
  unfold slider_filter keep_indices
  rw [slider_foldl]
  simp [emptyTable]

/-! ### Claim theorems (first batch) -/

/-- C9: truncation keeps texts of length at most 20 unchanged and replaces
longer texts by their first 20 characters followed by an ellipsis. -/
theorem C9_truncation (t : String) :
    (t.length ≤ 20 → truncate_text t = t) ∧
    (20 < t.length → truncate_text t = t.take 20 ++ "...") := by
  constructor
  · intro h
    unfold truncate_text
    rw [if_neg (by omega)]
  · intro h
    unfold truncate_text
    rw [if_pos h]

theorem C9_truncation_witness :
    (("hello panda").length ≤ 20 ∧ truncate_text "hello panda" = "hello panda") ∧
    (20 < ("abcdefghijklmnopqrstuvwxyz").length ∧
      truncate_text "abcdefghijklmnopqrstuvwxyz" =
        ("abcdefghijklmnopqrstuvwxyz").take 20 ++ "...") :=
  ⟨⟨by decide, (C9_truncation "hello panda").1 (by decide)⟩,
   ⟨by decide, (C9_truncation "abcdefghijklmnopqrstuvwxyz").2 (by decide)⟩⟩

/-- C6: after any axis-range change the labels are visible iff both the
visible width and height are strictly below 5; width 4 and height 3 shows
them, width 6 hides them regardless of height. -/
theorem C6_zoom :
    (∀ x_start x_end y_start y_end : ℚ,
      zoom_visible x_start x_end y_start y_end = true ↔
        (x_end - x_start < 5 ∧ y_end - y_start < 5)) ∧
    (∀ x_start y_start : ℚ, zoom_visible x_start (x_start + 4) y_start (y_start + 3) = true) ∧
    (∀ x_start y_start y_end : ℚ, zoom_visible x_start (x_start + 6) y_start y_end = false) := by
  refine ⟨?_, ?_, ?_⟩
  · intro xs xe ys ye
    simp [zoom_visible, threshold_x, threshold_y]
  · intro xs ys
    simp only [zoom_visible, threshold_x, threshold_y, Bool.and_eq_true, decide_eq_true_eq]
    constructor <;> [skip; skip] <;> rw [add_sub_cancel_left] <;> norm_num
  · intro xs ys ye
    simp only [zoom_visible, threshold_x]
    rw [add_sub_cancel_left]
    norm_num

/-- C7: the threshold slider's lower bound is the constant 5 and its upper
bound is the maximum of the count list when non-empty, or 100 when the
count list is empty. -/
theorem C7_slider_bounds (numbers : List Nat) :
    min_nonzero = 5 ∧
    (numbers = [] → max_nonzero numbers = 100) ∧
    (numbers ≠ [] →
      max_nonzero numbers ∈ numbers ∧ ∀ n ∈ numbers, n ≤ max_nonzero numbers) := by
  refine ⟨rfl, ?_, ?_⟩
  · intro h
    rw [h]
    rfl
  · intro h
    match numbers with
    | [] => exact absurd rfl h
    | n :: rest =>
      refine ⟨foldl_max_mem n rest, ?_⟩
      intro m hm
      rcases List.mem_cons.mp hm with h1 | h1
      · exact h1 ▸ (le_foldl_max n rest).1
      · exact (le_foldl_max n rest).2 m h1

theorem C7_slider_bounds_witness :
    (([] : List Nat) = [] ∧ max_nonzero [] = 100) ∧
    (([3, 7, 5] : List Nat) ≠ [] ∧ max_nonzero [3, 7, 5] ∈ [3, 7, 5] ∧
      ∀ n ∈ [3, 7, 5], n ≤ max_nonzero [3, 7, 5]) :=
  ⟨⟨rfl, (C7_slider_bounds []).2.1 rfl⟩,
   ⟨by decide, (C7_slider_bounds [3, 7, 5]).2.2 (by decide)⟩⟩

/-- C5: the slider filter rebuilds the working table keeping exactly the
rows whose count is at least the threshold, in their original order, with
every parallel field selected by the same index list; on counts
`[3, 10, 60]` with threshold 10 exactly the rows with counts 10 and 60
remain, in that order. -/
theorem C5_slider_filter :
    (∀ (full : Table) (threshold : Nat),
      slider_filter full threshold =
        ⟨select full.x 0 (keep_indices full threshold),
         select full.y 0 (keep_indices full threshold),
         select full.text "" (keep_indices full threshold),
         select full.truncated "" (keep_indices full threshold),
         select full.number 0 (keep_indices full threshold),
         select full.size 0 (keep_indices full threshold),
         select full.expansions [] (keep_indices full threshold)⟩) ∧
    (∀ (full : Table) (threshold : Nat),
      (slider_filter full threshold).number =
        ((List.range full.x.length).map (fun i => full.number.getD i 0)).filter
          (fun n => decide (threshold ≤ n))) ∧
    slider_filter
        ⟨[1, 2, 3], [4, 5, 6], ["a", "b", "c"], ["a", "b", "c"], [3, 10, 60],
          [1, 5, 30], [[], [], []]⟩ 10 =
      ⟨[2, 3], [5, 6], ["b", "c"], ["b", "c"], [10, 60], [5, 30], [[], []]⟩ := by
  refine ⟨fun full threshold => slider_filter_eq full threshold, ?_, by decide⟩
  intro full threshold
  rw [slider_filter_eq]
  show select full.number 0 (keep_indices full threshold) = _
  unfold select keep_indices
  rw [List.filter_map]
  rfl

/-- C8: the selection callback yields the placeholder on an empty selection,
a "no expansions" message naming the bubble's label when the selected
bubble's expansion list is missing or empty, and otherwise markup holding
exactly the bubble's label followed by one list item per expansion. -/
theorem C8_selection (data : Table) (inds : List Nat) :
    (inds = [] → selection_callback data inds = placeholder) ∧
    (∀ i rest, inds = i :: rest →
      ((data.expansions[i]? = none ∨ data.expansions[i]? = some []) →
        selection_callback data inds =
          "<b>No expansions found for:</b> " ++ data.text.getD i "") ∧
      (∀ es, data.expansions[i]? = some es → es ≠ [] →
        selection_callback data inds =
          "<div style=\"font-size: 12px;\">" ++ data.text.getD i "" ++
            "</div><ul style=\"font-size: 12px;\">" ++
            String.join (es.map (fun e => "<li>" ++ e ++ "</li>")) ++ "</ul>")) := by
  constructor
  · intro h
    rw [h]
    rfl
  · intro i rest h
    subst h
    constructor
    · intro h1
      rcases h1 with h1 | h1 <;>
        simp [selection_callback, h1, no_expansions_msg]
    · intro es h1 h2
      have h3 : es.isEmpty = false := by
        cases es with
        | nil => exact absurd rfl h2
        | cons a t => rfl
      simp only [selection_callback, h1, h3, if_neg Bool.false_ne_true, detail_msg,
        render_expansion_items]
      rw [foldl_li_append]
      simp

theorem C8_selection_witness :
    (([] : List Nat) = [] ∧
      selection_callback ⟨[], [], [], [], [], [], []⟩ [] = placeholder) ∧
    (selection_callback ⟨[1, 2], [1, 2], ["a", "b"], ["a", "b"], [60, 70], [30, 35],
        [["e1", "e2"], []]⟩ [1] = "<b>No expansions found for:</b> " ++ "b") ∧
    (selection_callback ⟨[1, 2], [1, 2], ["a", "b"], ["a", "b"], [60, 70], [30, 35],
        [["e1", "e2"], []]⟩ [0] =
      "<div style=\"font-size: 12px;\">" ++ "a" ++
        "</div><ul style=\"font-size: 12px;\">" ++
        String.join (["e1", "e2"].map (fun e => "<li>" ++ e ++ "</li>")) ++ "</ul>") := by
  refine ⟨⟨rfl, (C8_selection ⟨[], [], [], [], [], [], []⟩ []).1 rfl⟩, ?_, ?_⟩
  · have h := ((C8_selection ⟨[1, 2], [1, 2], ["a", "b"], ["a", "b"], [60, 70], [30, 35],
      [["e1", "e2"], []]⟩ [1]).2 1 [] rfl).1 (Or.inr (by decide))
    simpa using h
  · have h := ((C8_selection ⟨[1, 2], [1, 2], ["a", "b"], ["a", "b"], [60, 70], [30, 35],
      [["e1", "e2"], []]⟩ [0]).2 0 [] rfl).2 ["e1", "e2"] (by decide) (by decide)
    simpa using h


lemma aggregate_basic (inp : Inputs) : AggBasic (aggregate inp) :=
  aggregateOver_basic inp (processed_features inp)

lemma aggregate_counts (inp : Inputs) : ∀ n ∈ (aggregate inp).numbers, 50 < n :=
  aggregateOver_counts inp (processed_features inp)

lemma aggregate_eq (inp : Inputs) :
    aggregate inp = aggregateOver inp (processed_features inp) := rfl

attribute [irreducible] aggregate

set_option maxHeartbeats 800000 in
/-- C2: after coordinate binding the four parallel lists all have length
`min(len(texts), len(x_coords))` and each is exactly the prefix of its
pre-binding value of that length. -/
theorem C2_binding (inp : Inputs) :
    (bindCoords inp).texts.length
        = min (aggregate inp).texts.length inp.coords_2d.length ∧
    (bindCoords inp).numbers.length
        = min (aggregate inp).texts.length inp.coords_2d.length ∧
    (bindCoords inp).x_coords.length
        = min (aggregate inp).texts.length inp.coords_2d.length ∧
    (bindCoords inp).y_coords.length
        = min (aggregate inp).texts.length inp.coords_2d.length ∧
    (bindCoords inp).texts
        = (aggregate inp).texts.take
            (min (aggregate inp).texts.length inp.coords_2d.length) ∧
    (bindCoords inp).numbers
        = (aggregate inp).numbers.take
            (min (aggregate inp).texts.length inp.coords_2d.length) ∧
    (bindCoords inp).x_coords
        = (inp.coords_2d.map (fun p => p.1)).take
            (min (aggregate inp).texts.length inp.coords_2d.length) ∧
    (bindCoords inp).y_coords
        = (inp.coords_2d.map (fun p => p.2)).take
            (min (aggregate inp).texts.length inp.coords_2d.length) := by
  have hx : (inp.coords_2d.map (fun p => p.1)).length = inp.coords_2d.length :=
    List.length_map _ _
  have h1 : (bindCoords inp).texts
      = (aggregate inp).texts.take
          (min (aggregate inp).texts.length
            (inp.coords_2d.map (fun p => p.1)).length) := rfl
  have h2 : (bindCoords inp).numbers
      = (aggregate inp).numbers.take
          (min (aggregate inp).texts.length
            (inp.coords_2d.map (fun p => p.1)).length) := rfl
  have h3 : (bindCoords inp).x_coords
      = (inp.coords_2d.map (fun p => p.1)).take
          (min (aggregate inp).texts.length
            (inp.coords_2d.map (fun p => p.1)).length) := rfl
  have h4 : (bindCoords inp).y_coords
      = (inp.coords_2d.map (fun p => p.2)).take
          (min (aggregate inp).texts.length
            (inp.coords_2d.map (fun p => p.1)).length) := rfl
  rw [hx] at h1 h2 h3 h4
  have hnum : (aggregate inp).numbers.length = (aggregate inp).texts.length :=
    (aggregate_basic inp).len_numbers
  refine ⟨?_, ?_, ?_, ?_, h1, h2, h3, h4⟩
  · rw [h1, List.length_take]
    exact min_eq_left (min_le_left _ _)
  · rw [h2, List.length_take, hnum]
    exact min_eq_left (min_le_left _ _)
  · rw [h3, List.length_take, hx]
    exact min_eq_left (min_le_right _ _)
  · rw [h4, List.length_take, List.length_map]
    exact min_eq_left (min_le_right _ _)

set_option maxHeartbeats 800000 in
/-- C10: every bound bubble's count exceeds 50, so the slider filter at any
threshold at most 50 — in particular the initial value 5 — returns the full
table unchanged. -/
theorem C10_counts_above_50 (inp : Inputs) :
    (∀ n ∈ (bindCoords inp).numbers, 50 < n) ∧
    (∀ threshold : Nat, threshold ≤ 50 →
      slider_filter (full_table inp) threshold = full_table inp) ∧
    slider_filter (full_table inp) min_nonzero = full_table inp := by
  have hmem : ∀ n ∈ (bindCoords inp).numbers, 50 < n := by
    intro n hn
    exact aggregate_counts inp n (List.mem_of_mem_take hn)
  have hlen_tx : (bindCoords inp).texts.length = (bindCoords inp).x_coords.length := by
    show ((aggregate inp).texts.take _).length
        = ((inp.coords_2d.map (fun p => p.1)).take _).length
    rw [List.length_take, List.length_take]
    rw [min_eq_left (min_le_left _ _), min_eq_left (min_le_right _ _)]
  have hlen_num : (bindCoords inp).numbers.length = (bindCoords inp).x_coords.length := by
    show ((aggregate inp).numbers.take _).length
        = ((inp.coords_2d.map (fun p => p.1)).take _).length
    rw [List.length_take, List.length_take, (aggregate_basic inp).len_numbers]
    rw [min_eq_left (min_le_left _ _), min_eq_left (min_le_right _ _)]
  have hlen_y : (bindCoords inp).y_coords.length = (bindCoords inp).x_coords.length := by
    show ((inp.coords_2d.map (fun p => p.2)).take _).length
        = ((inp.coords_2d.map (fun p => p.1)).take _).length
    rw [List.length_take, List.length_take, List.length_map, List.length_map]
  have key : ∀ threshold : Nat, threshold ≤ 50 →
      slider_filter (full_table inp) threshold = full_table inp := by
    intro th hth
    rw [slider_filter_eq]
    have hkeep : keep_indices (full_table inp) th
        = List.range (full_table inp).x.length := by
      unfold keep_indices
      rw [List.filter_eq_self]
      intro i hi
      rw [List.mem_range] at hi
      have hilen : i < (full_table inp).number.length := by
        show i < (bindCoords inp).numbers.length
        rw [hlen_num]
        exact hi
      rw [decide_eq_true_eq, List.getD_eq_getElem _ _ hilen]
      have h50 : 50 < (full_table inp).number[i] :=
        hmem _ (List.getElem_mem hilen)
      omega
    rw [hkeep]
    have hsel : ∀ {α : Type} (l : List α) (d : α),
        l.length = (full_table inp).x.length →
        select l d (List.range (full_table inp).x.length) = l := by
      intro α l d hl
      rw [← hl]
      exact map_getD_range l d
    have e1 : select (full_table inp).x 0 (List.range (full_table inp).x.length)
        = (full_table inp).x := hsel _ _ rfl
    have e2 : select (full_table inp).y 0 (List.range (full_table inp).x.length)
        = (full_table inp).y := hsel _ _ hlen_y
    have e3 : select (full_table inp).text "" (List.range (full_table inp).x.length)
        = (full_table inp).text := hsel _ _ hlen_tx
    have e4 : select (full_table inp).truncated "" (List.range (full_table inp).x.length)
        = (full_table inp).truncated := by
      refine hsel _ _ ?_
      show ((bindCoords inp).texts.map truncate_text).length = _
      rw [List.length_map]
      exact hlen_tx
    have e5 : select (full_table inp).number 0 (List.range (full_table inp).x.length)
        = (full_table inp).number := hsel _ _ hlen_num
    have e6 : select (full_table inp).size 0 (List.range (full_table inp).x.length)
        = (full_table inp).size := by
      refine hsel _ _ ?_
      show ((bindCoords inp).numbers.map (fun n : Nat => (n : ℚ) / 2)).length = _
      rw [List.length_map]
      exact hlen_num
    have e7 : select (full_table inp).expansions [] (List.range (full_table inp).x.length)
        = (full_table inp).expansions := by
      refine hsel _ _ ?_
      show ((bindCoords inp).texts.map
        (fun t => lookupExp (aggregate inp).expansions_map t)).length = _
      rw [List.length_map]
      exact hlen_tx
    rw [e1, e2, e3, e4, e5, e6, e7]
  exact ⟨hmem, key, key 5 (by omega)⟩

/-! ### Ranking lemmas -/

lemma argsort_perm {α : Type} [LinearOrder α] (v : List α) (d : α) :
    (argsort v d).Perm (List.range v.length) := by
  unfold argsort
  have h1 : (((List.range v.length).map
        (fun i => (i, v.getD i d))).insertionSort argRel).Perm
      ((List.range v.length).map (fun i => (i, v.getD i d))) :=
    List.perm_insertionSort _ _
  have h2 := h1.map (fun p : Nat × α => p.1)
  rw [List.map_map] at h2
  have h3 : List.map ((fun p : Nat × α => p.1) ∘ (fun i => (i, v.getD i d)))
      (List.range v.length) = List.range v.length := by
    rw [show ((fun p : Nat × α => p.1) ∘ (fun i => (i, v.getD i d)))
      = fun i => i from rfl]
    exact List.map_id _
  rw [h3] at h2
  exact h2

lemma argsort_sorted {α : Type} [LinearOrder α] (v : List α) (d : α) :
    (argsort v d).Pairwise (fun i j => v.getD i d ≤ v.getD j d) := by
  unfold argsort
  have hs : (((List.range v.length).map
        (fun i => (i, v.getD i d))).insertionSort argRel).Pairwise argRel :=
    List.sorted_insertionSort argRel _
  have hmem : ∀ p ∈ ((List.range v.length).map
      (fun i => (i, v.getD i d))).insertionSort argRel, p.2 = v.getD p.1 d := by
    intro p hp
    rw [List.mem_insertionSort] at hp
    obtain ⟨i, _, rfl⟩ := List.mem_map.mp hp
    rfl
  have hs2 : (((List.range v.length).map
        (fun i => (i, v.getD i d))).insertionSort argRel).Pairwise
      (fun p q : Nat × α => v.getD p.1 d ≤ v.getD q.1 d) := by
    refine hs.imp_of_mem ?_
    intro a b ha hb hab
    rw [← hmem a ha, ← hmem b hb]
    rcases hab with h | ⟨h, _⟩
    · exact le_of_lt h
    · exact le_of_eq h
  exact List.pairwise_map.mpr hs2

lemma nonzero_features_length (inp : Inputs) :
    (nonzero_features inp).length = maxLabelKey inp.feature_labels := by
  unfold nonzero_features
  rw [List.length_map, List.length_range]

lemma top_features_perm (inp : Inputs) :
    (top_features inp).Perm (List.range (maxLabelKey inp.feature_labels)) := by
  unfold top_features
  have h := argsort_perm (nonzero_features inp) 0
  rw [nonzero_features_length] at h
  exact (List.reverse_perm _).trans h

lemma top_features_sorted (inp : Inputs) :
    (top_features inp).Pairwise (fun a b =>
      (nonzero_features inp).getD b 0 ≤ (nonzero_features inp).getD a 0) := by
  unfold top_features
  rw [List.pairwise_reverse]
  exact argsort_sorted (nonzero_features inp) 0

lemma length_filter_getD {α : Type} (l : List α) (d : α) (p : α → Bool) :
    (l.filter p).length
      = ((List.range l.length).filter (fun j => p (l.getD j d))).length := by
  induction l with
  | nil => rfl
  | cons a t ih =>
    rw [List.length_cons, List.range_succ_eq_map, List.filter_cons, List.filter_cons]
    have hcomp : List.filter ((fun j => p ((a :: t).getD j d)) ∘ Nat.succ)
          (List.range t.length)
        = List.filter (fun j => p (t.getD j d)) (List.range t.length) := by
      refine List.filter_congr ?_
      intro j _
      rfl
    rw [List.filter_map, hcomp]
    show _ = (if p ((a :: t).getD 0 d) then _ :: _ else _).length
    rw [show (a :: t).getD 0 d = a from rfl]
    by_cases hp : p a
    · rw [if_pos hp, if_pos hp, List.length_cons, List.length_cons, ih, List.length_map]
    · rw [if_neg hp, if_neg hp, ih, List.length_map]

set_option maxHeartbeats 800000 in
/-- C1: the Aggregator computes the number of strictly positive activations
for each feature in the labeled column range, ranks all those features in
descending count order, and iterates exactly over the ranked list from rank
100 on — every skipped feature has a count at least that of every processed
one. -/
theorem C1_ranking (inp : Inputs) :
    (nonzero_features inp).length = maxLabelKey inp.feature_labels ∧
    (∀ i, i < maxLabelKey inp.feature_labels →
      (nonzero_features inp).getD i 0
        = ((List.range inp.feature_activations.length).filter
            (fun j => decide (0 < activation inp j i))).length) ∧
    (top_features inp).Perm (List.range (maxLabelKey inp.feature_labels)) ∧
    (top_features inp).Pairwise (fun a b =>
      (nonzero_features inp).getD b 0 ≤ (nonzero_features inp).getD a 0) ∧
    processed_features inp = (top_features inp).drop 100 ∧
    (∀ a ∈ (top_features inp).take 100, ∀ b ∈ processed_features inp,
      (nonzero_features inp).getD b 0 ≤ (nonzero_features inp).getD a 0) := by
  refine ⟨nonzero_features_length inp, ?_, top_features_perm inp,
    top_features_sorted inp, rfl, ?_⟩
  · intro i hi
    have hlen : i < (nonzero_features inp).length := by
      rw [nonzero_features_length]
      exact hi
    rw [List.getD_eq_getElem _ _ hlen]
    unfold nonzero_features
    rw [List.getElem_map, List.getElem_range]
    unfold nonzeroCount
    have h := length_filter_getD inp.feature_activations []
      (fun row => decide (0 < row.getD i 0))
    rw [h]
    refine congrArg List.length (List.filter_congr ?_)
    intro j _
    rfl
  · intro a ha b hb
    have hsplit := top_features_sorted inp
    rw [← List.take_append_drop 100 (top_features inp), List.pairwise_append] at hsplit
    exact hsplit.2.2 a ha b hb

/-! ### Index and update lemmas -/

lemma indexOfStr_lt_length {l : List String} {t : String} (h : t ∈ l) :
    indexOfStr l t < l.length := by
  induction l with
  | nil => cases h
  | cons a l ih =>
    unfold indexOfStr
    by_cases ha : a = t
    · rw [if_pos ha]
      exact Nat.succ_pos _
    · rw [if_neg ha]
      have ht : t ∈ l := by
        rcases List.mem_cons.mp h with h1 | h1
        · exact absurd h1.symm ha
        · exact h1
      exact Nat.succ_lt_succ (ih ht)

lemma indexOfStr_getD {l : List String} {t : String} (h : t ∈ l) (d : String) :
    l.getD (indexOfStr l t) d = t := by
  induction l with
  | nil => cases h
  | cons a l ih =>
    unfold indexOfStr
    by_cases ha : a = t
    · rw [if_pos ha]
      exact ha
    · rw [if_neg ha]
      have ht : t ∈ l := by
        rcases List.mem_cons.mp h with h1 | h1
        · exact absurd h1.symm ha
        · exact h1
      rw [List.getD_cons_succ]
      exact ih ht

lemma indexOfStr_append_of_mem {l : List String} (l₂ : List String) {t : String}
    (h : t ∈ l) : indexOfStr (l ++ l₂) t = indexOfStr l t := by
  induction l with
  | nil => cases h
  | cons a l ih =>
    rw [List.cons_append]
    unfold indexOfStr
    by_cases ha : a = t
    · rw [if_pos ha, if_pos ha]
    · rw [if_neg ha, if_neg ha]
      have ht : t ∈ l := by
        rcases List.mem_cons.mp h with h1 | h1
        · exact absurd h1.symm ha
        · exact h1
      rw [ih ht]

lemma indexOfStr_append_self {l : List String} {t : String} (h : t ∉ l) :
    indexOfStr (l ++ [t]) t = l.length := by
  induction l with
  | nil =>
    show indexOfStr [t] t = 0
    unfold indexOfStr
    rw [if_pos rfl]
  | cons a l ih =>
    rw [List.cons_append]
    unfold indexOfStr
    have ha : a ≠ t := fun e => h (e ▸ List.mem_cons_self a l)
    rw [if_neg ha, ih (fun hl => h (List.mem_cons_of_mem a hl)), List.length_cons]

lemma indexOfStr_inj {l : List String} {a b : String} (ha : a ∈ l) (hb : b ∈ l)
    (h : indexOfStr l a = indexOfStr l b) : a = b :=
  calc a = l.getD (indexOfStr l a) "" := (indexOfStr_getD ha "").symm
    _ = l.getD (indexOfStr l b) "" := by rw [h]
    _ = b := indexOfStr_getD hb ""

lemma getD_set_self (l : List Nat) (i : Nat) (v d : Nat) (h : i < l.length) :
    (l.set i v).getD i d = v := by
  rw [List.getD_eq_getElem _ _ (by simpa using h)]
  exact List.getElem_set_self _

lemma getD_set_ne (l : List Nat) (i j : Nat) (v d : Nat) (h : i ≠ j) :
    (l.set i v).getD j d = l.getD j d := by
  by_cases hj : j < l.length
  · rw [List.getD_eq_getElem _ _ (by simpa using hj), List.getD_eq_getElem _ _ hj]
    exact List.getElem_set_ne h _
  · rw [List.getD_eq_default _ _ (by simpa using Nat.le_of_not_lt hj),
      List.getD_eq_default _ _ (Nat.le_of_not_lt hj)]

/-! ### Qualification lemmas -/

lemma qual_labels_spec (inp : Inputs) (i : Nat) (lab : String) :
    (match lookupLabel inp.feature_labels i with
      | some l => if 50 < (nonzero_features inp).getD i 0 then some l else none
      | none => none) = some lab ↔ qualB inp lab i = true := by
  unfold qualB
  cases hl : lookupLabel inp.feature_labels i with
  | none =>
    constructor
    · intro h
      cases h
    · intro h
      rw [Bool.and_eq_true] at h
      obtain ⟨-, h2⟩ := h
      cases eq_of_beq h2
  | some l =>
    show (if 50 < (nonzero_features inp).getD i 0 then some l else none) = some lab
        ↔ (decide (50 < (nonzero_features inp).getD i 0) && (some l == some lab)) = true
    by_cases hc : 50 < (nonzero_features inp).getD i 0
    · rw [if_pos hc, decide_eq_true hc, Bool.true_and]
      constructor
      · intro h
        rw [Option.some_inj] at h
        rw [h]
        exact beq_self_eq_true _
      · intro h
        exact eq_of_beq h
    · rw [if_neg hc, decide_eq_false hc, Bool.false_and]
      constructor
      · intro h
        cases h
      · intro h
        cases h

lemma mem_qual_labels (inp : Inputs) (fs : List Nat) (lab : String) :
    lab ∈ qual_labels inp fs ↔ ∃ i ∈ fs, qualB inp lab i = true := by
  unfold qual_labels
  rw [List.mem_filterMap]
  constructor
  · rintro ⟨i, hi, h⟩
    exact ⟨i, hi, (qual_labels_spec inp i lab).mp h⟩
  · rintro ⟨i, hi, h⟩
    exact ⟨i, hi, (qual_labels_spec inp i lab).mpr h⟩

lemma qualifying_eq_nil_iff (inp : Inputs) (fs : List Nat) (lab : String) :
    qualifying inp fs lab = [] ↔ lab ∉ qual_labels inp fs := by
  unfold qualifying
  rw [List.filter_eq_nil_iff, mem_qual_labels]
  constructor
  · rintro h ⟨i, hi, hq⟩
    exact h i hi hq
  · intro h i hi hq
    exact h ⟨i, hi, hq⟩

lemma firstQual_eq_none_iff (inp : Inputs) (fs : List Nat) (lab : String) :
    firstQual inp fs lab = none ↔ lab ∉ qual_labels inp fs := by
  unfold firstQual
  rw [List.find?_eq_none, mem_qual_labels]
  constructor
  · rintro h ⟨i, hi, hq⟩
    exact h i hi hq
  · intro h i hi hq
    exact h ⟨i, hi, hq⟩

lemma qual_labels_append (inp : Inputs) (fs gs : List Nat) :
    qual_labels inp (fs ++ gs) = qual_labels inp fs ++ qual_labels inp gs :=
  List.filterMap_append _ _ _

lemma qualifying_append (inp : Inputs) (fs gs : List Nat) (lab : String) :
    qualifying inp (fs ++ gs) lab
      = qualifying inp fs lab ++ qualifying inp gs lab := by
  unfold qualifying
  exact List.filter_append fs gs

lemma qualifying_singleton (inp : Inputs) (i : Nat) (lab : String) :
    qualifying inp [i] lab = if qualB inp lab i then [i] else [] := by
  unfold qualifying
  rw [List.filter_cons]
  cases h : qualB inp lab i with
  | true => simp
  | false => simp

lemma maxQualCount_append_singleton (inp : Inputs) (fs : List Nat) (i : Nat)
    (lab : String) :
    maxQualCount inp (fs ++ [i]) lab =
      if qualB inp lab i then
        Nat.max (maxQualCount inp fs lab) ((nonzero_features inp).getD i 0)
      else maxQualCount inp fs lab := by
  unfold maxQualCount
  rw [qualifying_append, qualifying_singleton]
  by_cases h : qualB inp lab i
  · rw [if_pos h, if_pos h, List.map_append, List.foldl_append]
    rfl
  · rw [if_neg h, if_neg h, List.append_nil]

lemma firstQual_append_singleton (inp : Inputs) (fs : List Nat) (i : Nat)
    (lab : String) :
    firstQual inp (fs ++ [i]) lab
      = (firstQual inp fs lab).or (if qualB inp lab i then some i else none) := by
  unfold firstQual
  rw [List.find?_append]
  congr 1
  by_cases h : qualB inp lab i
  · rw [if_pos h]
    exact List.find?_cons_of_pos _ h
  · rw [if_neg h]
    rw [List.find?_cons_of_neg _ (by simp [h])]
    rfl

lemma qualB_false_of_none (inp : Inputs) (i : Nat)
    (hl : lookupLabel inp.feature_labels i = none) (lab : String) :
    qualB inp lab i = false := by
  unfold qualB
  rw [hl]
  simp

lemma qualB_false_of_small (inp : Inputs) (i : Nat)
    (hc : ¬ 50 < (nonzero_features inp).getD i 0) (lab : String) :
    qualB inp lab i = false := by
  unfold qualB
  rw [decide_eq_false hc, Bool.false_and]

lemma qualB_iff_label (inp : Inputs) (i : Nat) (label : String)
    (hl : lookupLabel inp.feature_labels i = some label)
    (hc : 50 < (nonzero_features inp).getD i 0) (lab : String) :
    qualB inp lab i = true ↔ lab = label := by
  unfold qualB
  rw [hl, decide_eq_true hc, Bool.true_and]
  constructor
  · intro h
    exact (Option.some_inj.mp (eq_of_beq h)).symm
  · intro h
    rw [h]
    exact beq_self_eq_true _

lemma lookupExp_append_left (m m₂ : List (String × List String)) (lab : String)
    (h : ∃ p ∈ m, p.1 = lab) :
    lookupExp (m ++ m₂) lab = lookupExp m lab := by
  unfold lookupExp
  rw [List.find?_append]
  cases hf : m.find? (fun p => p.1 == lab) with
  | none =>
    exfalso
    obtain ⟨p, hp, he⟩ := h
    have := List.find?_eq_none.mp hf p hp
    simp [he] at this
  | some q => rfl

lemma lookupExp_append_new (m : List (String × List String)) (lab : String)
    (es : List String) (h : ∀ p ∈ m, p.1 ≠ lab) :
    lookupExp (m ++ [(lab, es)]) lab = es := by
  unfold lookupExp
  rw [List.find?_append]
  have hf : m.find? (fun p => p.1 == lab) = none := by
    rw [List.find?_eq_none]
    intro p hp
    simpa using h p hp
  rw [hf]
  rw [List.find?_cons_of_pos _ (by simp)]
  rfl

lemma qual_labels_singleton_none (inp : Inputs) (i : Nat)
    (hl : lookupLabel inp.feature_labels i = none) :
    qual_labels inp [i] = [] := by
  unfold qual_labels
  simp only [List.filterMap_cons, List.filterMap_nil, hl]

lemma qual_labels_singleton_small (inp : Inputs) (i : Nat)
    (hc : ¬ 50 < (nonzero_features inp).getD i 0) :
    qual_labels inp [i] = [] := by
  unfold qual_labels
  cases hl : lookupLabel inp.feature_labels i with
  | none => simp only [List.filterMap_cons, List.filterMap_nil, hl]
  | some l => simp only [List.filterMap_cons, List.filterMap_nil, hl, if_neg hc]

lemma qual_labels_singleton_some (inp : Inputs) (i : Nat) (label : String)
    (hl : lookupLabel inp.feature_labels i = some label)
    (hc : 50 < (nonzero_features inp).getD i 0) :
    qual_labels inp [i] = [label] := by
  unfold qual_labels
  simp only [List.filterMap_cons, List.filterMap_nil, hl, if_pos hc]

/-! ### The aggregation loop invariant -/

lemma aggStep_eq_none (inp : Inputs) (nf : List Nat) (s : AggState) (i : Nat)
    (hl : lookupLabel inp.feature_labels i = none) :
    aggStep inp nf s i = s := by
  simp only [aggStep, hl]

lemma aggStep_eq_small (inp : Inputs) (nf : List Nat) (s : AggState) (i : Nat)
    (label : String) (hl : lookupLabel inp.feature_labels i = some label)
    (hc : ¬ 50 < nf.getD i 0) :
    aggStep inp nf s i = s := by
  simp only [aggStep, hl]
  rw [if_neg hc]

lemma aggStep_eq_update (inp : Inputs) (nf : List Nat) (s : AggState) (i : Nat)
    (label : String) (hl : lookupLabel inp.feature_labels i = some label)
    (hc : 50 < nf.getD i 0) (hm : label ∈ s.texts) :
    aggStep inp nf s i =
      { s with numbers := (s.numbers.set (indexOfStr s.texts label)
          (Nat.max (s.numbers.getD (indexOfStr s.texts label) 0) (nf.getD i 0))) } := by
  simp only [aggStep, hl]
  rw [if_pos hc, if_pos hm]

lemma aggStep_eq_create (inp : Inputs) (nf : List Nat) (s : AggState) (i : Nat)
    (label : String) (hl : lookupLabel inp.feature_labels i = some label)
    (hc : 50 < nf.getD i 0) (hm : label ∉ s.texts) :
    aggStep inp nf s i =
      ⟨s.texts ++ [label], s.numbers ++ [nf.getD i 0],
        s.expansions_map ++ [(label, expansionsFor inp i)]⟩ := by
  simp only [aggStep, hl]
  rw [if_pos hc, if_neg hm]

/-- The invariant relating the loop state after processing `fs` to the
accepted features: texts are distinct and are exactly the accepted labels,
each label's number is the running maximum of its accepted counts, and each
label's expansions are those computed from its first accepted feature. -/
structure AggInv (inp : Inputs) (fs : List Nat) (s : AggState) : Prop where
  basic : AggBasic s
  nodup : s.texts.Nodup
  mem_iff : ∀ lab, lab ∈ s.texts ↔ lab ∈ qual_labels inp fs
  counts : ∀ lab, lab ∈ s.texts →
    s.numbers.getD (indexOfStr s.texts lab) 0 = maxQualCount inp fs lab
  exps : ∀ lab, lab ∈ s.texts → ∃ i, firstQual inp fs lab = some i ∧
    lookupExp s.expansions_map lab = expansionsFor inp i
  exps_shape : ∀ p ∈ s.expansions_map,
    ∃ i, lookupLabel inp.feature_labels i = some p.1 ∧
      50 < (nonzero_features inp).getD i 0 ∧ p.2 = expansionsFor inp i

lemma aggInv_extend_skip (inp : Inputs) (fs : List Nat) (i : Nat) (s : AggState)
    (h : AggInv inp fs s)
    (hq : ∀ lab, qualB inp lab i = false)
    (hql : qual_labels inp [i] = []) :
    AggInv inp (fs ++ [i]) s := by
  constructor
  · exact h.basic
  · exact h.nodup
  · intro lab
    rw [qual_labels_append, hql, List.append_nil]
    exact h.mem_iff lab
  · intro lab hmem
    rw [maxQualCount_append_singleton,
      if_neg (by rw [hq lab]; exact Bool.false_ne_true)]
    exact h.counts lab hmem
  · intro lab hmem
    obtain ⟨i0, h1, h2⟩ := h.exps lab hmem
    refine ⟨i0, ?_, h2⟩
    rw [firstQual_append_singleton, h1, Option.or_some]
  · exact h.exps_shape

lemma aggInv_extend_update (inp : Inputs) (fs : List Nat) (i : Nat) (s : AggState)
    (h : AggInv inp fs s) (label : String)
    (hl : lookupLabel inp.feature_labels i = some label)
    (hc : 50 < (nonzero_features inp).getD i 0)
    (hm : label ∈ s.texts) :
    AggInv inp (fs ++ [i])
      { s with numbers := (s.numbers.set (indexOfStr s.texts label)
          (Nat.max (s.numbers.getD (indexOfStr s.texts label) 0)
            ((nonzero_features inp).getD i 0))) } := by
  have hqB : qualB inp label i = true := (qualB_iff_label inp i label hl hc label).mpr rfl
  constructor
  · exact ⟨by simp [h.basic.len_numbers], h.basic.keys_eq⟩
  · exact h.nodup
  · intro lab
    rw [qual_labels_append, qual_labels_singleton_some inp i label hl hc]
    constructor
    · intro hmem
      exact List.mem_append.mpr (Or.inl ((h.mem_iff lab).mp hmem))
    · intro hx
      rcases List.mem_append.mp hx with hx | hx
      · exact (h.mem_iff lab).mpr hx
      · rw [List.mem_singleton.mp hx]
        exact hm
  · intro lab hmem
    rw [maxQualCount_append_singleton]
    by_cases hlab : lab = label
    · subst hlab
      rw [if_pos hqB]
      have hidx : indexOfStr s.texts lab < s.numbers.length := by
        rw [h.basic.len_numbers]
        exact indexOfStr_lt_length hm
      rw [getD_set_self _ _ _ _ hidx, h.counts lab hm]
    · have hqf : ¬ qualB inp lab i = true :=
        fun hq => hlab ((qualB_iff_label inp i label hl hc lab).mp hq)
      rw [if_neg hqf]
      have hne : indexOfStr s.texts label ≠ indexOfStr s.texts lab :=
        fun he => hlab (indexOfStr_inj hm hmem he).symm
      rw [getD_set_ne _ _ _ _ _ hne]
      exact h.counts lab hmem
  · intro lab hmem
    obtain ⟨i0, h1, h2⟩ := h.exps lab hmem
    refine ⟨i0, ?_, h2⟩
    rw [firstQual_append_singleton, h1, Option.or_some]
  · exact h.exps_shape

lemma aggInv_extend_create (inp : Inputs) (fs : List Nat) (i : Nat) (s : AggState)
    (h : AggInv inp fs s) (label : String)
    (hl : lookupLabel inp.feature_labels i = some label)
    (hc : 50 < (nonzero_features inp).getD i 0)
    (hm : label ∉ s.texts) :
    AggInv inp (fs ++ [i])
      ⟨s.texts ++ [label], s.numbers ++ [(nonzero_features inp).getD i 0],
        s.expansions_map ++ [(label, expansionsFor inp i)]⟩ := by
  have hqB : qualB inp label i = true := (qualB_iff_label inp i label hl hc label).mpr rfl
  have hql := qual_labels_singleton_some inp i label hl hc
  have hnotql : label ∉ qual_labels inp fs := fun hq => hm ((h.mem_iff label).mpr hq)
  constructor
  · constructor
    · simp [h.basic.len_numbers]
    · simp [h.basic.keys_eq]
  · rw [List.nodup_append]
    exact ⟨h.nodup, List.nodup_singleton _, by simpa using hm⟩
  · intro lab
    rw [qual_labels_append, hql]
    constructor
    · intro hx
      rcases List.mem_append.mp hx with hx | hx
      · exact List.mem_append.mpr (Or.inl ((h.mem_iff lab).mp hx))
      · exact List.mem_append.mpr (Or.inr hx)
    · intro hx
      rcases List.mem_append.mp hx with hx | hx
      · exact List.mem_append.mpr (Or.inl ((h.mem_iff lab).mpr hx))
      · exact List.mem_append.mpr (Or.inr hx)
  · intro lab hmem
    rw [maxQualCount_append_singleton]
    by_cases hlab : lab = label
    · subst hlab
      rw [if_pos hqB, indexOfStr_append_self hm,
        List.getD_append_right _ _ _ _ (le_of_eq h.basic.len_numbers),
        h.basic.len_numbers, Nat.sub_self]
      have h0 : maxQualCount inp fs lab = 0 := by
        unfold maxQualCount
        rw [(qualifying_eq_nil_iff inp fs lab).mpr hnotql]
        rfl
      rw [h0, List.getD_cons_zero, Nat.max_eq_max, max_eq_right (Nat.zero_le _)]
    · have hlabmem : lab ∈ s.texts := by
        rcases List.mem_append.mp hmem with hx | hx
        · exact hx
        · exact absurd (List.mem_singleton.mp hx) hlab
      have hqf : ¬ qualB inp lab i = true :=
        fun hq => hlab ((qualB_iff_label inp i label hl hc lab).mp hq)
      rw [if_neg hqf, indexOfStr_append_of_mem _ hlabmem,
        List.getD_append _ _ _ _ (by
          rw [h.basic.len_numbers]
          exact indexOfStr_lt_length hlabmem)]
      exact h.counts lab hlabmem
  · intro lab hmem
    by_cases hlab : lab = label
    · subst hlab
      refine ⟨i, ?_, ?_⟩
      · rw [firstQual_append_singleton,
          (firstQual_eq_none_iff inp fs lab).mpr hnotql, Option.none_or, if_pos hqB]
      · refine lookupExp_append_new _ _ _ ?_
        intro p hp hpe
        apply hm
        rw [← h.basic.keys_eq]
        exact List.mem_map.mpr ⟨p, hp, hpe⟩
    · have hlabmem : lab ∈ s.texts := by
        rcases List.mem_append.mp hmem with hx | hx
        · exact hx
        · exact absurd (List.mem_singleton.mp hx) hlab
      obtain ⟨i0, h1, h2⟩ := h.exps lab hlabmem
      refine ⟨i0, ?_, ?_⟩
      · rw [firstQual_append_singleton, h1, Option.or_some]
      · rw [lookupExp_append_left]
        · exact h2
        · rw [← h.basic.keys_eq] at hlabmem
          obtain ⟨p, hp, hpe⟩ := List.mem_map.mp hlabmem
          exact ⟨p, hp, hpe⟩
  · intro p hp
    rcases List.mem_append.mp hp with hp | hp
    · exact h.exps_shape p hp
    · rw [List.mem_singleton.mp hp]
      exact ⟨i, hl, hc, rfl⟩

lemma aggInv_over (inp : Inputs) (fs : List Nat) :
    AggInv inp fs (aggregateOver inp fs) := by
  induction fs using List.reverseRecOn with
  | nil =>
    constructor
    · exact ⟨rfl, rfl⟩
    · exact List.nodup_nil
    · intro lab
      constructor
      · intro h
        cases h
      · intro h
        rw [show qual_labels inp [] = [] from rfl] at h
        cases h
    · intro lab h
      cases h
    · intro lab h
      cases h
    · intro p hp
      cases hp
  | append_singleton fs i ih =>
    have hstep : aggregateOver inp (fs ++ [i])
        = aggStep inp (nonzero_features inp) (aggregateOver inp fs) i := by
      unfold aggregateOver
      rw [List.foldl_append, List.foldl_cons, List.foldl_nil]
    rw [hstep]
    cases hl : lookupLabel inp.feature_labels i with
    | none =>
      rw [aggStep_eq_none inp _ _ i hl]
      exact aggInv_extend_skip inp fs i _ ih (qualB_false_of_none inp i hl)
        (qual_labels_singleton_none inp i hl)
    | some label =>
      by_cases hc : 50 < (nonzero_features inp).getD i 0
      · by_cases hm : label ∈ (aggregateOver inp fs).texts
        · rw [aggStep_eq_update inp _ _ i label hl hc hm]
          exact aggInv_extend_update inp fs i _ ih label hl hc hm
        · rw [aggStep_eq_create inp _ _ i label hl hc hm]
          exact aggInv_extend_create inp fs i _ ih label hl hc hm
      · rw [aggStep_eq_small inp _ _ i label hl hc]
        exact aggInv_extend_skip inp fs i _ ih (qualB_false_of_small inp i hc)
          (qual_labels_singleton_small inp i hc)

lemma qualB_spec {inp : Inputs} {lab : String} {i : Nat}
    (h : qualB inp lab i = true) :
    lookupLabel inp.feature_labels i = some lab
      ∧ 50 < (nonzero_features inp).getD i 0 := by
  unfold qualB at h
  rw [Bool.and_eq_true] at h
  obtain ⟨h1, h2⟩ := h
  exact ⟨eq_of_beq h2, of_decide_eq_true h1⟩

lemma dropWhile_head_qual (p : Nat → Bool) (l : List Nat) (h : l.filter p ≠ []) :
    ∃ a t, l.dropWhile (fun x => !p x) = a :: t ∧ p a = true := by
  induction l with
  | nil => exact absurd rfl h
  | cons b l ih =>
    by_cases hb : p b
    · refine ⟨b, l, ?_, hb⟩
      rw [List.dropWhile_cons_of_neg]
      simp [hb]
    · have hfil : l.filter p ≠ [] := by
        intro hh
        apply h
        rw [List.filter_cons, if_neg (by simp [hb]), hh]
      obtain ⟨a, t, hd, hq⟩ := ih hfil
      refine ⟨a, t, ?_, hq⟩
      rw [List.dropWhile_cons_of_pos (by simp [hb]), hd]

lemma aggStep_texts (inp : Inputs) (nf : List Nat) (s : AggState) (i : Nat) :
    ∃ t, (aggStep inp nf s i).texts = s.texts ++ t := by
  unfold aggStep
  split
  · exact ⟨[], (List.append_nil _).symm⟩
  · split
    · split
      · exact ⟨[], (List.append_nil _).symm⟩
      · exact ⟨[_], rfl⟩
    · exact ⟨[], (List.append_nil _).symm⟩

lemma foldl_texts_extend (inp : Inputs) (nf : List Nat) (s : AggState)
    (gs : List Nat) :
    ∃ t, (gs.foldl (aggStep inp nf) s).texts = s.texts ++ t := by
  induction gs generalizing s with
  | nil => exact ⟨[], (List.append_nil _).symm⟩
  | cons g gs ih =>
    rw [List.foldl_cons]
    obtain ⟨t1, h1⟩ := aggStep_texts inp nf s g
    obtain ⟨t2, h2⟩ := ih (aggStep inp nf s g)
    exact ⟨t1 ++ t2, by rw [h2, h1, List.append_assoc]⟩

/-- C3: when two or more processed features share a label, a single bubble
results whose count is the maximum of those features' counts, while its
expansion list and its position in the bubble list are the ones computed at
the first such feature: the expansions come from the first accepted feature
and the position is the number of bubbles existing just before it. -/
theorem C3_dedup_max (inp : Inputs) (lab : String)
    (h2 : 2 ≤ (qualifying inp (processed_features inp) lab).length) :
    lab ∈ (aggregate inp).texts ∧
    (aggregate inp).numbers.getD (indexOfStr (aggregate inp).texts lab) 0
      = maxQualCount inp (processed_features inp) lab ∧
    (∃ i, firstQual inp (processed_features inp) lab = some i ∧
      lookupExp (aggregate inp).expansions_map lab = expansionsFor inp i) ∧
    indexOfStr (aggregate inp).texts lab
      = (aggregateOver inp
          ((processed_features inp).takeWhile
            (fun j => !qualB inp lab j))).texts.length := by
  have hnil : qualifying inp (processed_features inp) lab ≠ [] := by
    intro hh
    rw [hh] at h2
    simp at h2
  have hinv := aggInv_over inp (processed_features inp)
  rw [aggregate_eq]
  have hmemql : lab ∈ qual_labels inp (processed_features inp) := by
    by_contra hq
    exact hnil ((qualifying_eq_nil_iff inp (processed_features inp) lab).mpr hq)
  have hmem : lab ∈ (aggregateOver inp (processed_features inp)).texts :=
    (hinv.mem_iff lab).mpr hmemql
  refine ⟨hmem, hinv.counts lab hmem, hinv.exps lab hmem, ?_⟩
  obtain ⟨a, t, hd, ha⟩ := dropWhile_head_qual (qualB inp lab)
    (processed_features inp) hnil
  have hsplit : (processed_features inp).takeWhile (fun j => !qualB inp lab j)
      ++ (a :: t) = processed_features inp := by
    rw [← hd]
    exact List.takeWhile_append_dropWhile _ _
  obtain ⟨hla, hca⟩ := qualB_spec ha
  have htinv := aggInv_over inp
    ((processed_features inp).takeWhile (fun j => !qualB inp lab j))
  have hnotin : lab ∉ (aggregateOver inp
      ((processed_features inp).takeWhile (fun j => !qualB inp lab j))).texts := by
    intro hx
    obtain ⟨j, hj, hqj⟩ := (mem_qual_labels inp _ lab).mp ((htinv.mem_iff lab).mp hx)
    have hw := List.mem_takeWhile_imp hj
    rw [hqj] at hw
    simp at hw
  have hstep : aggregateOver inp
      (((processed_features inp).takeWhile (fun j => !qualB inp lab j)) ++ [a])
      = aggStep inp (nonzero_features inp)
          (aggregateOver inp
            ((processed_features inp).takeWhile (fun j => !qualB inp lab j))) a := by
    unfold aggregateOver
    rw [List.foldl_append, List.foldl_cons, List.foldl_nil]
  have hcreate : (aggregateOver inp
      (((processed_features inp).takeWhile (fun j => !qualB inp lab j)) ++ [a])).texts
      = (aggregateOver inp
          ((processed_features inp).takeWhile (fun j => !qualB inp lab j))).texts
        ++ [lab] := by
    rw [hstep, aggStep_eq_create inp _ _ a lab hla hca hnotin]
  have hfull : aggregateOver inp (processed_features inp)
      = t.foldl (aggStep inp (nonzero_features inp))
          (aggregateOver inp
            (((processed_features inp).takeWhile (fun j => !qualB inp lab j))
              ++ [a])) := by
    conv_lhs => rw [← hsplit]
    show (((processed_features inp).takeWhile (fun j => !qualB inp lab j))
        ++ (a :: t)).foldl (aggStep inp (nonzero_features inp)) ⟨[], [], []⟩ = _
    rw [List.append_cons, List.foldl_append]
    rfl
  obtain ⟨ext, hext⟩ := foldl_texts_extend inp (nonzero_features inp)
    (aggregateOver inp
      (((processed_features inp).takeWhile (fun j => !qualB inp lab j)) ++ [a])) t
  have hmem2 : lab ∈ (aggregateOver inp
      (((processed_features inp).takeWhile (fun j => !qualB inp lab j))
        ++ [a])).texts := by
    rw [hcreate]
    exact List.mem_append.mpr (Or.inr (List.mem_singleton.mpr rfl))
  rw [hfull, hext, indexOfStr_append_of_mem _ hmem2, hcreate,
    indexOfStr_append_self hnotin]

/-! ### Expansion lemmas and C4 -/

lemma column_getD (inp : Inputs) (i j : Nat) :
    (column inp i).getD j 0 = activation inp j i := by
  unfold column activation
  by_cases hj : j < inp.feature_activations.length
  · rw [List.getD_eq_getElem _ _ (by simpa using hj), List.getElem_map,
      List.getD_eq_getElem _ _ hj]
  · rw [List.getD_eq_default _ _ (by simpa using Nat.le_of_not_lt hj),
      List.getD_eq_default _ _ (Nat.le_of_not_lt hj)]
    rfl

lemma expansion_indices_sorted (inp : Inputs) (i : Nat) :
    (expansion_indices inp i).Pairwise
      (fun a b => activation inp b i ≤ activation inp a i) := by
  have h1 : ((argsort (column inp i) 0).reverse).Pairwise
      (fun a b => (column inp i).getD b 0 ≤ (column inp i).getD a 0) := by
    rw [List.pairwise_reverse]
    exact argsort_sorted (column inp i) 0
  have hsub : List.Sublist (expansion_indices inp i)
      ((argsort (column inp i) 0).reverse) := by
    unfold expansion_indices
    exact (List.filter_sublist _).trans (List.take_sublist _ _)
  refine (List.Pairwise.sublist hsub h1).imp ?_
  intro a b hab
  rw [column_getD, column_getD] at hab
  exact hab

lemma expansion_indices_le_10 (inp : Inputs) (i : Nat) :
    (expansion_indices inp i).length ≤ 10 := by
  unfold expansion_indices
  calc (List.filter _ _).length
      ≤ (((argsort (column inp i) 0).reverse).take 10).length :=
        List.length_filter_le _ _
    _ ≤ 10 := by
        rw [List.length_take]
        exact min_le_left _ _

lemma expansion_indices_big (inp : Inputs) (i : Nat) :
    ∀ j ∈ expansion_indices inp i, (1 : ℚ)/10 < activation inp j i := by
  intro j hj
  unfold expansion_indices at hj
  exact of_decide_eq_true (List.mem_filter.mp hj).2

/-- C4: every bubble's expansion list comes from a single creating feature
carrying the bubble's label: it has at most 10 entries, each entry is the
text of an example whose activation at that feature strictly exceeds 0.1,
and the entries appear in non-increasing activation order. -/
theorem C4_expansions (inp : Inputs) (p : String × List String)
    (hp : p ∈ (aggregate inp).expansions_map) :
    ∃ i, lookupLabel inp.feature_labels i = some p.1 ∧
      p.2 = (expansion_indices inp i).map inp.ind_to_question ∧
      p.2.length ≤ 10 ∧
      (∀ j ∈ expansion_indices inp i, (1 : ℚ)/10 < activation inp j i) ∧
      (expansion_indices inp i).Pairwise
        (fun a b => activation inp b i ≤ activation inp a i) := by
  rw [aggregate_eq] at hp
  obtain ⟨i, h1, -, h3⟩ := (aggInv_over inp (processed_features inp)).exps_shape p hp
  refine ⟨i, h1, h3, ?_, expansion_indices_big inp i, expansion_indices_sorted inp i⟩
  rw [h3]
  show ((expansion_indices inp i).map inp.ind_to_question).length ≤ 10
  rw [List.length_map]
  exact expansion_indices_le_10 inp i

/-! ### Concrete witnesses -/

set_option allowUnsafeReducibility true in
attribute [semireducible] aggregate

/-- A small concrete input: 51 example rows, all 102 features of the labeled
column range uniformly active, and two features sharing the label `lab`
(ranked last, so both survive the rank-100 cutoff). -/
def sampleInputs : Inputs :=
  ⟨fun j => "q" ++ toString j,
   List.replicate 51 (List.replicate 102 1),
   [(0, "lab"), (1, "lab"), (102, "z")],
   [((1 : ℚ), 2), (3, 4)]⟩

set_option maxRecDepth 100000 in
theorem C1_ranking_witness :
    ((0 < maxLabelKey sampleInputs.feature_labels) ∧
      (nonzero_features sampleInputs).getD 0 0
        = ((List.range sampleInputs.feature_activations.length).filter
            (fun j => decide (0 < activation sampleInputs j 0))).length) ∧
    (101 ∈ (top_features sampleInputs).take 100 ∧
      1 ∈ processed_features sampleInputs ∧
      (nonzero_features sampleInputs).getD 1 0
        ≤ (nonzero_features sampleInputs).getD 101 0) :=
  ⟨⟨by decide, (C1_ranking sampleInputs).2.1 0 (by decide)⟩,
   ⟨by decide, by decide,
     (C1_ranking sampleInputs).2.2.2.2.2 101 (by decide) 1 (by decide)⟩⟩

set_option maxRecDepth 100000 in
theorem C3_dedup_max_witness :
    (2 ≤ (qualifying sampleInputs (processed_features sampleInputs) "lab").length) ∧
    ("lab" ∈ (aggregate sampleInputs).texts ∧
      (aggregate sampleInputs).numbers.getD
          (indexOfStr (aggregate sampleInputs).texts "lab") 0
        = maxQualCount sampleInputs (processed_features sampleInputs) "lab" ∧
      (∃ i, firstQual sampleInputs (processed_features sampleInputs) "lab" = some i ∧
        lookupExp (aggregate sampleInputs).expansions_map "lab"
          = expansionsFor sampleInputs i) ∧
      indexOfStr (aggregate sampleInputs).texts "lab"
        = (aggregateOver sampleInputs
            ((processed_features sampleInputs).takeWhile
              (fun j => !qualB sampleInputs "lab" j))).texts.length) :=
  ⟨by decide, C3_dedup_max sampleInputs "lab" (by decide)⟩

set_option maxRecDepth 100000 in
theorem C4_expansions_witness :
    (("lab", ["q50", "q49", "q48", "q47", "q46", "q45", "q44", "q43", "q42", "q41"])
        ∈ (aggregate sampleInputs).expansions_map) ∧
    (∃ i, lookupLabel sampleInputs.feature_labels i = some "lab" ∧
      ["q50", "q49", "q48", "q47", "q46", "q45", "q44", "q43", "q42", "q41"]
        = (expansion_indices sampleInputs i).map sampleInputs.ind_to_question ∧
      (["q50", "q49", "q48", "q47", "q46", "q45", "q44", "q43", "q42",
        "q41"] : List String).length ≤ 10 ∧
      (∀ j ∈ expansion_indices sampleInputs i,
        (1 : ℚ)/10 < activation sampleInputs j i) ∧
      (expansion_indices sampleInputs i).Pairwise
        (fun a b => activation sampleInputs b i ≤ activation sampleInputs a i)) :=
  ⟨by decide!,
   C4_expansions sampleInputs
     ("lab", ["q50", "q49", "q48", "q47", "q46", "q45", "q44", "q43", "q42", "q41"])
     (by decide!)⟩

set_option maxRecDepth 100000 in
theorem C10_counts_above_50_witness :
    (51 ∈ (bindCoords sampleInputs).numbers ∧ 50 < 51) ∧
    ((5 : Nat) ≤ 50 ∧
      slider_filter (full_table sampleInputs) 5 = full_table sampleInputs) :=
  ⟨⟨by decide, (C10_counts_above_50 sampleInputs).1 51 (by decide)⟩,
   ⟨by decide, (C10_counts_above_50 sampleInputs).2.1 5 (by decide)⟩⟩

end DataVizSAE
